import Mathlib

/-!
Verification development for the smart_rockets repository (src/main.py).

The Python program is shallowly embedded: floating point arithmetic is
idealised as real arithmetic, math.hypot as the Euclidean norm, and the
random draws of the breeding pipeline are passed in explicitly as oracle
streams (a draw of random.randint(a, b) is modelled as a + u % (b - a + 1)
for an arbitrary natural u, which ranges over exactly the support of the
Python draw).  Python code that can raise (ZeroDivisionError in the
fitness pass, IndexError in random.choice on an empty list) is modelled
with Option, where none means the corresponding exception.
-/

/-- Two dimensional point, the namedtuple Point of main.py. -/
@[ext]
structure Point where
  x : ℝ
  y : ℝ

/-- Axis-aligned obstacle rectangle, a pygame.Rect built from config. -/
structure Obstacle where
  x : ℝ
  y : ℝ
  w : ℝ
  h : ℝ

/-- Rect.collidepoint of pygame: the point is inside the rectangle, the
right and bottom edges excluded. -/
def Obstacle.collidepoint (o : Obstacle) (p : Point) : Prop :=
  o.x ≤ p.x ∧ p.x < o.x + o.w ∧ o.y ≤ p.y ∧ p.y < o.y + o.h

noncomputable instance (o : Obstacle) (p : Point) : Decidable (o.collidepoint p) :=
  inferInstanceAs (Decidable (_ ∧ _ ∧ _ ∧ _))

/-- State of one rocket: the fields of class Rocket in main.py. -/
structure Rocket where
  genome : List ℤ
  fitness : ℝ
  id : ℕ
  alive : Bool
  angle : ℝ
  pos : Point

/-- Model of random.randint a b: some value of the support [a, b],
selected by the oracle value u. -/
def randint (a b : ℤ) (u : ℕ) : ℤ :=
  a + ((u % (b - a + 1).toNat : ℕ) : ℤ)

/-- Rocket.__init__: a fresh genome of 300 draws of randint(-7, 7),
fitness -1 (unevaluated), alive, at the origin with angle 0.  The id that
Python takes from a process wide counter, and the oracle stream u feeding
the 300 draws, are explicit parameters. -/
def mkRocket (id : ℕ) (u : ℕ → ℕ) : Rocket :=
  { genome := (List.range 300).map (fun i => randint (-7) 7 (u i))
    fitness := -1
    id := id
    alive := true
    angle := 0
    pos := ⟨0, 0⟩ }

/-- math.radians. -/
noncomputable def radians (deg : ℝ) : ℝ :=
  deg * (Real.pi / 180)

/-- Rocket.apply_force: move along the current angle by the given force. -/
noncomputable def Rocket.apply_force (r : Rocket) (force : ℝ) : Rocket :=
  { r with pos := ⟨r.pos.x + Real.cos (radians r.angle) * force,
                   r.pos.y + Real.sin (radians r.angle) * force⟩ }

/-- Body of the per-rocket loop of Simulation.update: an alive rocket
first moves with apply_force(3) and only then adds the genome instruction
genome[index % len(genome)] to its angle; a dead rocket is untouched. -/
noncomputable def updateRocket (idx : ℕ) (r : Rocket) : Rocket :=
  if r.alive then
    let moved := r.apply_force 3
    { moved with
        angle := moved.angle + ((moved.genome.getD (idx % moved.genome.length) 0 : ℤ) : ℝ) }
  else r

/-- Modelled from the spec: the per-tick agent step as the spec states it,
adding the headingDelta to the heading first and then moving along the NEW
heading.  This definition follows the words of the claim and spec section
4.1 and is compared against updateRocket, which follows the source. -/
noncomputable def specStepRocket (idx : ℕ) (r : Rocket) : Rocket :=
  if r.alive then
    let turned :=
      { r with angle := r.angle + ((r.genome.getD (idx % r.genome.length) 0 : ℤ) : ℝ) }
    turned.apply_force 3
  else r

/-- Euclidean distance, Simulation._distance via math.hypot. -/
noncomputable def pointDist (p q : Point) : ℝ :=
  Real.sqrt ((p.x - q.x) ^ 2 + (p.y - q.y) ^ 2)

/-- Fitness value that Simulation._fitness assigns to a rocket at
position p, once the division is known to be defined. -/
noncomputable def fitnessValue (start goal p : Point) : ℝ :=
  100 - pointDist p goal / pointDist start goal * 100

/-- Body of Simulation._fitness over the rocket list: each rocket gets
fitness 100 - (d / total_distance) * 100; the division by a zero
total_distance raises ZeroDivisionError in Python, modelled by none. -/
noncomputable def fitnessList (goal : Point) (total : ℝ) : List Rocket → Option (List Rocket)
  | [] => some []
  | r :: rs =>
      if total = 0 then none
      else (fitnessList goal total rs).map
        (fun rest => { r with fitness := 100 - pointDist r.pos goal / total * 100 } :: rest)

/-- Simulation._fitness: score every rocket against the current goal,
normalising by the distance from start to goal. -/
noncomputable def fitnessPass (start goal : Point) (rockets : List Rocket) : Option (List Rocket) :=
  fitnessList goal (pointDist start goal) rockets

/-- Out-of-bounds test of Simulation._check_collision: the rocket left
the window rectangle (strict inequalities, the edges themselves are in
bounds). -/
def outsideWindow (w h : ℝ) (p : Point) : Prop :=
  p.x < 0 ∨ p.x > w ∨ p.y < 0 ∨ p.y > h

noncomputable instance (w h : ℝ) (p : Point) : Decidable (outsideWindow w h p) :=
  inferInstanceAs (Decidable (_ ∨ _ ∨ _ ∨ _))

/-- Per-rocket body of Simulation._check_collision: the edge checks
(if / elif), then the loop over obstacles, each hit setting alive to
false.  Only the alive flag is ever written. -/
noncomputable def collideStep (w h : ℝ) (obstacles : List Obstacle) (r : Rocket) : Rocket :=
  let r1 :=
    if r.pos.x < 0 ∨ r.pos.x > w then { r with alive := false }
    else if r.pos.y < 0 ∨ r.pos.y > h then { r with alive := false }
    else r
  obstacles.foldl
    (fun rr o => if o.collidepoint rr.pos then { rr with alive := false } else rr) r1

/-- Simulation._check_collision over the whole rocket list. -/
noncomputable def checkCollision (w h : ℝ) (obstacles : List Obstacle)
    (rockets : List Rocket) : List Rocket :=
  rockets.map (collideStep w h obstacles)

/-- State of the Simulation object: the fields read and written by the
core loop.  win_size is (0, 0, winW, winH); population is the configured
population size. -/
structure SimState where
  rockets : List Rocket
  index : ℕ
  winW : ℝ
  winH : ℝ
  obstacles : List Obstacle
  start : Point
  goal : Point
  population : ℕ
  generation : ℕ

/-- Simulation.update: move every alive rocket and apply its instruction,
advance the tick index, run the collision pass, then the fitness pass. -/
noncomputable def SimState.update (st : SimState) : Option SimState :=
  let moved := st.rockets.map (updateRocket st.index)
  let collided := checkCollision st.winW st.winH st.obstacles moved
  (fitnessPass st.start st.goal collided).map
    (fun fr => { st with rockets := fr, index := st.index + 1 })

/-- Simulation.alive_rockets: number of rockets whose alive flag is set. -/
def SimState.aliveRockets (st : SimState) : ℕ :=
  st.rockets.countP (fun r => r.alive)

/-- Simulation.found_solution: some rocket is within distance 10 of the
goal. -/
def SimState.foundSolution (st : SimState) : Prop :=
  ∃ r ∈ st.rockets, pointDist r.pos st.goal < 10

noncomputable instance (st : SimState) : Decidable st.foundSolution :=
  inferInstanceAs (Decidable (∃ r ∈ st.rockets, pointDist r.pos st.goal < 10))

/-- Oracle streams for every random draw made during one breeding event:
the 10 percent branch of _selection, parent and split draws of _crossover
(indexed by the loop iteration), the fresh genomes and ids of the child
rockets, and the per rocket, per gene mutation draws. -/
structure Oracle where
  selBranch : Bool
  p1 : ℕ → ℕ
  p2 : ℕ → ℕ
  split : ℕ → ℕ
  childU : ℕ → ℕ → ℕ → ℕ
  childId : ℕ → ℕ → ℕ
  mutCoin : ℕ → ℕ → Bool
  mutU : ℕ → ℕ → ℕ

/-- Elite size of _selection: int(0.2 * n), the float literal 0.2 taken
exactly and int() truncating the nonnegative product downwards. -/
def eliteCount (n : ℕ) : ℕ :=
  (⌊(0.2 : ℚ) * (n : ℚ)⌋).toNat

/-- Descending fitness order used by sorted(..., reverse=True). -/
def fitGE (a b : Rocket) : Prop :=
  b.fitness ≤ a.fitness

noncomputable instance : DecidableRel fitGE :=
  fun a b => inferInstanceAs (Decidable (b.fitness ≤ a.fitness))

instance : IsTotal Rocket fitGE :=
  ⟨fun a b => le_total b.fitness a.fitness⟩

instance : IsTrans Rocket fitGE :=
  ⟨fun _ _ _ hab hbc => le_trans hbc hab⟩

/-- Stable descending sort by fitness, the model of
sorted(rockets, key=fitness, reverse=True): insertion sort places a
later tie after an earlier one, exactly as the stable Python sort. -/
noncomputable def sortByFitness (rockets : List Rocket) : List Rocket :=
  List.insertionSort fitGE rockets

/-- Simulation._selection including its probabilistic side branch: the
first component is the returned elite slice, the second is the local
sorted list after the 10 percent branch possibly appended the two least
fit rockets to it (rockets[-2:] is drop (length - 2)). -/
noncomputable def selectionPair (branch : Bool) (rockets : List Rocket) :
    List Rocket × List Rocket :=
  let sorted := sortByFitness rockets
  let result := sorted.take (eliteCount sorted.length)
  let extended := if branch then sorted ++ sorted.drop (sorted.length - 2) else sorted
  (result, extended)

/-- Simulation._selection: the value the function returns. -/
noncomputable def selection (branch : Bool) (rockets : List Rocket) : List Rocket :=
  (selectionPair branch rockets).1

/-- Model of random.choice: pick the element at the oracle index modulo
the length; on the empty list random.choice raises IndexError (none). -/
def choice {α : Type} (l : List α) (u : ℕ) : Option α :=
  l.get? (u % l.length)

/-- Child rocket of _crossover: a freshly constructed Rocket whose genome
is then overwritten with the spliced parent genome. -/
def mkChild (id : ℕ) (u : ℕ → ℕ) (genome : List ℤ) : Rocket :=
  { mkRocket id u with genome := genome }

/-- One iteration k of the _crossover loop: draw parent1 from the elite
pool, parent2 from the pool with parent1 removed (Python filters by
object identity, which on the pairwise distinct objects of the pool
removes exactly the chosen element), draw a split point in
[0, len(parent1.genome)] inclusive, and build the two spliced children. -/
def crossoverRound (rand : Oracle) (pool : List Rocket) (k : ℕ) :
    Option (Rocket × Rocket) :=
  (choice pool (rand.p1 k)).bind fun par1 =>
    (choice (pool.eraseIdx (rand.p1 k % pool.length)) (rand.p2 k)).bind fun par2 =>
      let split := (randint 0 (par1.genome.length : ℤ) (rand.split k)).toNat
      some (mkChild (rand.childId k 0) (rand.childU k 0)
              (par1.genome.take split ++ par2.genome.drop split),
            mkChild (rand.childId k 1) (rand.childU k 1)
              (par2.genome.take split ++ par1.genome.drop split))

/-- Offspring list of the _crossover loop, n iterations remaining and k
the current iteration index. -/
def crossoverAux (rand : Oracle) (pool : List Rocket) : ℕ → ℕ → Option (List Rocket)
  | _, 0 => some []
  | k, n + 1 =>
      (crossoverRound rand pool k).bind fun cs =>
        (crossoverAux rand pool (k + 1) n).map fun rest => cs.1 :: cs.2 :: rest

/-- Simulation._crossover: int((population - len(rockets)) / 2) loop
iterations, each producing two children, appended to the input pool. -/
def crossover (rand : Oracle) (pool : List Rocket) (population : ℕ) :
    Option (List Rocket) :=
  (crossoverAux rand pool 0 ((population - pool.length) / 2)).map
    fun off => pool ++ off

/-- Per gene body of _mutation starting at gene index i: with the coin
set, the gene is replaced by a fresh randint(-7, 7) draw. -/
def mutateGenome (coin : ℕ → Bool) (u : ℕ → ℕ) : ℕ → List ℤ → List ℤ
  | _, [] => []
  | i, g :: gs =>
      (if coin i then randint (-7) 7 (u i) else g) :: mutateGenome coin u (i + 1) gs

/-- Simulation._mutation over the rocket list, i the rocket index feeding
the oracle streams. -/
def mutation (coin : ℕ → ℕ → Bool) (u : ℕ → ℕ → ℕ) : ℕ → List Rocket → List Rocket
  | _, [] => []
  | i, r :: rs =>
      { r with genome := mutateGenome (coin i) (u i) 0 r.genome } ::
        mutation coin u (i + 1) rs

/-- Simulation._reset_rockets: every rocket back to the launch pad
(start.x, start.y + 3 - 50), angle 270, alive. -/
def resetRockets (start : Point) (rockets : List Rocket) : List Rocket :=
  rockets.map fun r =>
    { r with pos := ⟨start.x, start.y + 3 - 50⟩, angle := 270, alive := true }

/-- Simulation.next_gen: selection, crossover, mutation, kinematic reset,
tick index back to 0 and generation counter up by one. -/
noncomputable def nextGen (rand : Oracle) (st : SimState) : Option SimState :=
  (crossover rand (selection rand.selBranch st.rockets) st.population).map
    fun crossed =>
      { st with
          rockets := resetRockets st.start (mutation rand.mutCoin rand.mutU 0 crossed)
          index := 0
          generation := st.generation + 1 }

/-- Tail of the main loop body: if not sim.found_solution(), run
sim.update() (the rendering calls have no core state effect). -/
noncomputable def stepPhase (st : SimState) : Option SimState :=
  if st.foundSolution then some st else st.update

/-- One iteration of the while loop of main(): first, if no rocket is
alive, breed the next generation; then tick unless a solution is found.
The solved test runs on the state after a possible breeding step. -/
noncomputable def loopBody (rand : Oracle) (st : SimState) : Option SimState :=
  (if st.aliveRockets = 0 then nextGen rand st else some st).bind stepPhase

/-- Iterated Simulation.update. -/
noncomputable def iterUpdate : ℕ → SimState → Option SimState
  | 0, st => some st
  | k + 1, st => st.update.bind (iterUpdate k)

/-- Iterated main loop body with a fixed oracle. -/
noncomputable def iterLoop (rand : Oracle) : ℕ → SimState → Option SimState
  | 0, st => some st
  | k + 1, st => (loopBody rand st).bind (iterLoop rand k)

/-! ### Helper lemmas -/

lemma sqrt_eval {a b : ℝ} (hb : 0 ≤ b) (h : b ^ 2 = a) : Real.sqrt a = b := by
  subst h
  exact Real.sqrt_sq hb

lemma pointDist_nonneg (p q : Point) : 0 ≤ pointDist p q :=
  Real.sqrt_nonneg _

lemma pointDist_self (p : Point) : pointDist p p = 0 := by
  simp [pointDist]

lemma pointDist_eq_zero {p q : Point} : pointDist p q = 0 ↔ p = q := by
  constructor
  · intro h
    have h0 : (p.x - q.x) ^ 2 + (p.y - q.y) ^ 2 ≤ 0 :=
      Real.sqrt_eq_zero'.mp h
    have hx : p.x = q.x := by nlinarith [sq_nonneg (p.x - q.x), sq_nonneg (p.y - q.y)]
    have hy : p.y = q.y := by nlinarith [sq_nonneg (p.x - q.x), sq_nonneg (p.y - q.y)]
    exact Point.ext hx hy
  · rintro rfl
    exact pointDist_self p

lemma fitnessList_eq_some {goal : Point} {total : ℝ} :
    ∀ {l out : List Rocket}, fitnessList goal total l = some out →
      out = l.map fun r => { r with fitness := 100 - pointDist r.pos goal / total * 100 }
  | [], out => by
      intro h
      simpa [fitnessList] using h.symm
  | r :: rs, out => by
      intro h
      by_cases ht : total = 0
      · simp [fitnessList, ht] at h
      · simp only [fitnessList, if_neg ht, Option.map_eq_some'] at h
        obtain ⟨rest, hrest, hout⟩ := h
        subst hout
        simp [fitnessList_eq_some hrest]

lemma fitnessList_of_ne {goal : Point} {total : ℝ} (ht : total ≠ 0) :
    ∀ l : List Rocket, fitnessList goal total l =
      some (l.map fun r => { r with fitness := 100 - pointDist r.pos goal / total * 100 })
  | [] => by simp [fitnessList]
  | r :: rs => by simp [fitnessList, ht, fitnessList_of_ne ht rs]

lemma foldlCollide_eq (obs : List Obstacle) (r : Rocket) :
    obs.foldl (fun rr o => if o.collidepoint rr.pos then { rr with alive := false } else rr) r
      = if ∃ o ∈ obs, o.collidepoint r.pos then { r with alive := false } else r := by
  induction obs generalizing r with
  | nil => simp
  | cons o rest ih =>
      by_cases hc : o.collidepoint r.pos
      · simp only [List.foldl_cons, if_pos hc, ih]
        by_cases hrest : ∃ o2 ∈ rest, o2.collidepoint r.pos <;>
          simp_all [List.exists_mem_cons_iff]
      · simp only [List.foldl_cons, if_neg hc, ih]
        by_cases hrest : ∃ o2 ∈ rest, o2.collidepoint r.pos <;>
          simp_all [List.exists_mem_cons_iff]

lemma collideStep_eq (w h : ℝ) (obs : List Obstacle) (r : Rocket) :
    collideStep w h obs r =
      if outsideWindow w h r.pos ∨ ∃ o ∈ obs, o.collidepoint r.pos
      then { r with alive := false } else r := by
  unfold collideStep outsideWindow
  by_cases hx : r.pos.x < 0 ∨ r.pos.x > w
  · rcases hx with h1 | h1 <;>
      by_cases hob : ∃ o ∈ obs, o.collidepoint r.pos <;>
        simp [h1, hob, foldlCollide_eq]
  · push_neg at hx
    by_cases hy : r.pos.y < 0 ∨ r.pos.y > h
    · rcases hy with h1 | h1 <;>
        by_cases hob : ∃ o ∈ obs, o.collidepoint r.pos <;>
          simp [not_lt.mpr hx.1, not_lt.mpr hx.2, h1, hob, foldlCollide_eq]
    · push_neg at hy
      by_cases hob : ∃ o ∈ obs, o.collidepoint r.pos <;>
        simp [not_lt.mpr hx.1, not_lt.mpr hx.2, not_lt.mpr hy.1, not_lt.mpr hy.2,
          hob, foldlCollide_eq]

lemma update_eq_some {st st' : SimState} (h : st.update = some st') :
    st' = { st with
        rockets := st.rockets.map fun r =>
          let r2 := collideStep st.winW st.winH st.obstacles (updateRocket st.index r)
          { r2 with fitness :=
              100 - pointDist r2.pos st.goal / pointDist st.start st.goal * 100 }
        index := st.index + 1 } := by
  unfold SimState.update fitnessPass checkCollision at h
  rw [Option.map_eq_some'] at h
  obtain ⟨fr, hfr, hst⟩ := h
  have hchar := fitnessList_eq_some hfr
  subst hchar
  subst hst
  simp [List.map_map]

/-! ### C1: order of move and turn within one simulation step -/

/-- Concrete alive rocket at the origin, heading 0, every instruction 7. -/
def rocketC1 : Rocket :=
  { genome := List.replicate 300 7
    fitness := -1
    id := 0
    alive := true
    angle := 0
    pos := ⟨0, 0⟩ }

set_option maxRecDepth 4000 in
/-- C1 counterexample: at the concrete alive rocket rocketC1 on tick 0,
the step the source performs (move by force 3 along the OLD heading, then
add the instruction to the heading) differs from the step the claim
states (add the instruction first, then move along the NEW heading): the
source leaves the y coordinate at 0 while the claimed step raises it by
3 * sin(7 degrees) > 0. -/
theorem step_order_counterexample : updateRocket 0 rocketC1 ≠ specStepRocket 0 rocketC1 := by
  have hg : (List.replicate 300 (7 : ℤ)).getD 0 0 = 7 := by decide
  have h1 : (updateRocket 0 rocketC1).pos.y = 0 := by
    simp [updateRocket, rocketC1, Rocket.apply_force, radians]
  have hs : 0 < Real.sin (7 * (Real.pi / 180)) := by
    apply Real.sin_pos_of_pos_of_lt_pi
    · positivity
    · nlinarith [Real.pi_pos]
  have h2 : 0 < (specStepRocket 0 rocketC1).pos.y := by
    simp [specStepRocket, rocketC1, Rocket.apply_force, radians, hg]
    nlinarith [hs]
  intro hEq
  have hc : (updateRocket 0 rocketC1).pos.y = (specStepRocket 0 rocketC1).pos.y := by
    rw [hEq]
  rw [h1] at hc
  exact absurd hc.symm (ne_of_gt h2)

/-- C1 (amended): one simulation step first moves an alive agent by
force 3 along the OLD heading and only then adds the instruction
genome[index mod len] to the heading, so the instruction selected for a
tick affects the next displacement, not the displacement of that same
tick. -/
theorem step_moves_then_turns (idx : ℕ) (r : Rocket) (h : r.alive = true) :
    updateRocket idx r =
      { r with
          pos := ⟨r.pos.x + Real.cos (radians r.angle) * 3,
                  r.pos.y + Real.sin (radians r.angle) * 3⟩
          angle := r.angle + ((r.genome.getD (idx % r.genome.length) 0 : ℤ) : ℝ) } := by
  simp [updateRocket, Rocket.apply_force, h]

/-- C1 witness: the amended step characterisation instantiated at the
concrete rocket rocketC1 on tick 0. -/
theorem step_moves_then_turns_witness :
    rocketC1.alive = true ∧
      updateRocket 0 rocketC1 =
        { rocketC1 with
            pos := ⟨rocketC1.pos.x + Real.cos (radians rocketC1.angle) * 3,
                    rocketC1.pos.y + Real.sin (radians rocketC1.angle) * 3⟩
            angle := rocketC1.angle +
              ((rocketC1.genome.getD (0 % rocketC1.genome.length) 0 : ℤ) : ℝ) } :=
  ⟨rfl, step_moves_then_turns 0 rocketC1 rfl⟩

/-! ### C8: dead agents are frozen within a generation -/

lemma update_dead_frozen {st st' : SimState} (h : st.update = some st')
    {i : ℕ} (hi : i < st.rockets.length) :
    ∃ hi' : i < st'.rockets.length,
      ((st.rockets.get ⟨i, hi⟩).alive = false →
        (st'.rockets.get ⟨i, hi'⟩).pos = (st.rockets.get ⟨i, hi⟩).pos ∧
        (st'.rockets.get ⟨i, hi'⟩).angle = (st.rockets.get ⟨i, hi⟩).angle ∧
        (st'.rockets.get ⟨i, hi'⟩).alive = false) := by
  have hrw := update_eq_some h
  subst hrw
  refine ⟨by simpa using hi, ?_⟩
  intro hdead
  simp only [List.get_eq_getElem] at hdead
  simp only [List.get_eq_getElem, List.getElem_map]
  have hstep : updateRocket st.index st.rockets[i] = st.rockets[i] := by
    simp [updateRocket, hdead]
  rw [hstep, collideStep_eq]
  by_cases hc : outsideWindow st.winW st.winH (st.rockets[i]).pos ∨
      ∃ o ∈ st.obstacles, o.collidepoint (st.rockets[i]).pos
  · rw [if_pos hc]
    exact ⟨rfl, rfl, rfl⟩
  · rw [if_neg hc]
    exact ⟨rfl, rfl, by simpa using hdead⟩

/-- C8: once the alive flag of a rocket is false, any number of further
simulation steps (Simulation.update, so move plus collision plus fitness
pass, everything inside one generation) leaves its position and heading
unchanged, and the rocket stays dead. -/
theorem dead_rocket_frozen {k : ℕ} :
    ∀ {st st' : SimState}, iterUpdate k st = some st' →
      ∀ {i : ℕ} (hi : i < st.rockets.length),
        (st.rockets.get ⟨i, hi⟩).alive = false →
        ∃ hi' : i < st'.rockets.length,
          (st'.rockets.get ⟨i, hi'⟩).pos = (st.rockets.get ⟨i, hi⟩).pos ∧
          (st'.rockets.get ⟨i, hi'⟩).angle = (st.rockets.get ⟨i, hi⟩).angle ∧
          (st'.rockets.get ⟨i, hi'⟩).alive = false := by
  induction k with
  | zero =>
      intro st st' h i hi hdead
      have hst : st = st' := by simpa [iterUpdate] using h
      subst hst
      exact ⟨hi, rfl, rfl, hdead⟩
  | succ k ih =>
      intro st st' h i hi hdead
      have hbind : ∃ st1, st.update = some st1 ∧ iterUpdate k st1 = some st' := by
        simpa [iterUpdate, Option.bind_eq_some] using h
      obtain ⟨st1, h1, h2⟩ := hbind
      obtain ⟨hi1, hfr⟩ := update_dead_frozen h1 hi
      obtain ⟨hp1, ha1, hal1⟩ := hfr hdead
      obtain ⟨hi', hp, ha, hal⟩ := ih h2 hi1 hal1
      exact ⟨hi', by rw [hp, hp1], by rw [ha, ha1], hal⟩

/-- Concrete dead rocket used by the C8 witness. -/
noncomputable def deadRocket : Rocket :=
  { genome := List.replicate 300 0
    fitness := -1
    id := 0
    alive := false
    angle := 90
    pos := ⟨50, 60⟩ }

/-- Concrete simulation state holding only deadRocket. -/
noncomputable def stDead : SimState :=
  { rockets := [deadRocket]
    index := 0
    winW := 600
    winH := 800
    obstacles := []
    start := ⟨0, 0⟩
    goal := ⟨0, 100⟩
    population := 1
    generation := 1 }

/-- C8 witness: one concrete simulation step on stDead leaves the dead
rocket at position (50, 60) with angle 90 and still dead. -/
theorem dead_rocket_frozen_witness :
    ∃ st', iterUpdate 1 stDead = some st' ∧
      ∃ hi' : 0 < st'.rockets.length,
        (st'.rockets.get ⟨0, hi'⟩).pos = deadRocket.pos ∧
        (st'.rockets.get ⟨0, hi'⟩).angle = deadRocket.angle ∧
        (st'.rockets.get ⟨0, hi'⟩).alive = false := by
  have ht : pointDist stDead.start stDead.goal ≠ 0 := by
    simp [stDead, pointDist_eq_zero, Point.ext_iff]
  obtain ⟨st1, h1⟩ : ∃ st1, stDead.update = some st1 := by
    have hsome : (stDead.update).isSome := by
      simp only [SimState.update, fitnessPass]
      rw [@fitnessList_of_ne stDead.goal _ ht]
      rfl
    exact Option.isSome_iff_exists.mp hsome
  have hit : iterUpdate 1 stDead = some st1 := by
    simp [iterUpdate, h1]
  have h0 : 0 < stDead.rockets.length := by decide
  have hdead : (stDead.rockets.get ⟨0, h0⟩).alive = false := rfl
  obtain ⟨hi', hp, ha, hal⟩ := dead_rocket_frozen hit h0 hdead
  exact ⟨st1, hit, hi', hp, ha, hal⟩

/-! ### C9: the post-move collision pass -/

/-- C9: after Simulation._check_collision, every rocket whose position is
outside the window or inside some obstacle rectangle has alive = false;
the pass reads only the current (post-move) position, changes no
position and no angle, and leaves the alive flag of a rocket at a good
position untouched. -/
theorem collision_pass_marks_dead (w h : ℝ) (obs : List Obstacle) (rockets : List Rocket)
    (i : ℕ) (hi : i < rockets.length) :
    ∃ hi' : i < (checkCollision w h obs rockets).length,
      ((checkCollision w h obs rockets).get ⟨i, hi'⟩).pos = (rockets.get ⟨i, hi⟩).pos ∧
      ((checkCollision w h obs rockets).get ⟨i, hi'⟩).angle = (rockets.get ⟨i, hi⟩).angle ∧
      ((outsideWindow w h (rockets.get ⟨i, hi⟩).pos ∨
          ∃ o ∈ obs, o.collidepoint (rockets.get ⟨i, hi⟩).pos) →
        ((checkCollision w h obs rockets).get ⟨i, hi'⟩).alive = false) ∧
      (¬(outsideWindow w h (rockets.get ⟨i, hi⟩).pos ∨
          ∃ o ∈ obs, o.collidepoint (rockets.get ⟨i, hi⟩).pos) →
        ((checkCollision w h obs rockets).get ⟨i, hi'⟩).alive = (rockets.get ⟨i, hi⟩).alive) := by
  have hlen : i < (checkCollision w h obs rockets).length := by
    simpa [checkCollision] using hi
  refine ⟨hlen, ?_, ?_, ?_, ?_⟩ <;>
    simp only [checkCollision, List.get_eq_getElem, List.getElem_map, collideStep_eq]
  · split <;> rfl
  · split <;> rfl
  · intro hbad
    rw [if_pos hbad]
  · intro hgood
    rw [if_neg hgood]

/-- Concrete rocket beyond the left window edge for the C9 witness. -/
noncomputable def rocketOut : Rocket :=
  { genome := List.replicate 300 0
    fitness := -1
    id := 1
    alive := true
    angle := 0
    pos := ⟨-1, 5⟩ }

/-- C9 witness: the collision pass on the single rocket at x = -1 marks
it dead. -/
theorem collision_pass_marks_dead_witness :
    ∃ hi' : 0 < (checkCollision 600 800 [] [rocketOut]).length,
      ((checkCollision 600 800 [] [rocketOut]).get ⟨0, hi'⟩).alive = false := by
  obtain ⟨hi', hpos, hang, hkill, hkeep⟩ :=
    collision_pass_marks_dead 600 800 [] [rocketOut] 0 (by decide)
  refine ⟨hi', hkill (Or.inl ?_)⟩
  have hx : ([rocketOut].get ⟨0, by decide⟩).pos = ⟨-1, 5⟩ := rfl
  unfold outsideWindow
  rw [hx]
  norm_num

/-! ### C4: fitness formula, ordering and zero set -/

/-- C4 counterexample: fitness 0 does not hold exactly at the start
position: with start (0,0) and goal (1,0), the position (2,0) is distinct
from start yet also scores exactly 0, since it is equidistant from the
goal. -/
theorem fitness_zero_not_only_start :
    fitnessValue ⟨0, 0⟩ ⟨1, 0⟩ ⟨2, 0⟩ = 0 ∧ (⟨2, 0⟩ : Point) ≠ ⟨0, 0⟩ := by
  constructor
  · have h1 : pointDist ⟨2, 0⟩ ⟨1, 0⟩ = 1 := sqrt_eval (by norm_num) (by norm_num)
    have h2 : pointDist ⟨0, 0⟩ ⟨1, 0⟩ = 1 := sqrt_eval (by norm_num) (by norm_num)
    rw [fitnessValue, h1, h2]
    norm_num
  · simp [Point.ext_iff]

/-- C4 (amended): every fitness pass assigns
fitness = 100 - (dist(position, goal) / dist(start, goal)) * 100 with the
Euclidean distance; when start and goal differ, the fitness is strictly
decreasing in the distance to the goal, is 0 at the start position, is
negative exactly when the agent is farther from the goal than the start
is, and is 0 exactly when the agent is equidistant with the start (so not
only at position == start). -/
theorem fitness_formula :
    (∀ start goal rockets out, fitnessPass start goal rockets = some out →
      out = rockets.map fun r => { r with fitness := fitnessValue start goal r.pos }) ∧
    (∀ start goal p1 p2, pointDist start goal ≠ 0 →
      pointDist p1 goal < pointDist p2 goal →
      fitnessValue start goal p2 < fitnessValue start goal p1) ∧
    (∀ start goal, pointDist start goal ≠ 0 → fitnessValue start goal start = 0) ∧
    (∀ start goal p, pointDist start goal ≠ 0 →
      (fitnessValue start goal p < 0 ↔ pointDist start goal < pointDist p goal)) ∧
    (∀ start goal p, pointDist start goal ≠ 0 →
      (fitnessValue start goal p = 0 ↔ pointDist p goal = pointDist start goal)) := by
  have hpos : ∀ start goal : Point, pointDist start goal ≠ 0 → 0 < pointDist start goal :=
    fun start goal hT => lt_of_le_of_ne (pointDist_nonneg _ _) (Ne.symm hT)
  refine ⟨?_, ?_, ?_, ?_, ?_⟩
  · intro start goal rockets out h
    exact fitnessList_eq_some h
  · intro start goal p1 p2 hT hlt
    have hT0 := hpos start goal hT
    have hdiv : pointDist p1 goal / pointDist start goal <
        pointDist p2 goal / pointDist start goal := by gcongr
    unfold fitnessValue
    linarith
  · intro start goal hT
    unfold fitnessValue
    rw [div_self hT]
    ring
  · intro start goal p hT
    have hT0 := hpos start goal hT
    unfold fitnessValue
    rw [sub_neg, div_mul_eq_mul_div, lt_div_iff₀ hT0]
    constructor <;> intro <;> nlinarith
  · intro start goal p hT
    unfold fitnessValue
    rw [sub_eq_zero, div_mul_eq_mul_div, eq_div_iff hT]
    constructor <;> intro <;> nlinarith

/-- C4 witness: the start-scores-zero part of the amended claim at
start (0,0), goal (0,100). -/
theorem fitness_formula_witness :
    pointDist ⟨0, 0⟩ ⟨0, 100⟩ ≠ 0 ∧ fitnessValue ⟨0, 0⟩ ⟨0, 100⟩ ⟨0, 0⟩ = 0 := by
  have ht : pointDist (⟨0, 0⟩ : Point) ⟨0, 100⟩ ≠ 0 := by
    simp [pointDist_eq_zero, Point.ext_iff]
  exact ⟨ht, fitness_formula.2.2.1 ⟨0, 0⟩ ⟨0, 100⟩ ht⟩

/-! ### C10: the unguarded division of the fitness pass -/

/-- C10: _fitness divides by distance(start, goal) without a guard: with
start different from goal the division never fails and the whole pass is
defined for every rocket position, while with start equal to goal every
fitness evaluation of a nonempty rocket list raises ZeroDivisionError
(the pass returns none). -/
theorem fitness_division_guard :
    (∀ start goal rockets, start ≠ goal →
      fitnessPass start goal rockets =
        some (rockets.map fun r => { r with fitness := fitnessValue start goal r.pos })) ∧
    (∀ start goal rockets, start = goal → rockets ≠ [] →
      fitnessPass start goal rockets = none) := by
  constructor
  · intro start goal rockets hne
    have ht : pointDist start goal ≠ 0 := fun h0 => hne (pointDist_eq_zero.mp h0)
    exact fitnessList_of_ne ht rockets
  · intro start goal rockets heq hne
    subst heq
    cases rockets with
    | nil => exact absurd rfl hne
    | cons r rs => simp [fitnessPass, fitnessList, pointDist_self]

/-- C10 witness: both halves at concrete configurations, with the single
dead rocket list. -/
theorem fitness_division_guard_witness :
    ((⟨0, 0⟩ : Point) ≠ ⟨0, 100⟩ ∧
      fitnessPass ⟨0, 0⟩ ⟨0, 100⟩ [deadRocket] =
        some ([deadRocket].map fun r =>
          { r with fitness := fitnessValue ⟨0, 0⟩ ⟨0, 100⟩ r.pos })) ∧
    ((⟨5, 5⟩ : Point) = ⟨5, 5⟩ ∧ [deadRocket] ≠ [] ∧
      fitnessPass ⟨5, 5⟩ ⟨5, 5⟩ [deadRocket] = none) := by
  have hne : (⟨0, 0⟩ : Point) ≠ ⟨0, 100⟩ := by
    simp [Point.ext_iff]
  refine ⟨⟨hne, fitness_division_guard.1 ⟨0, 0⟩ ⟨0, 100⟩ [deadRocket] hne⟩,
    rfl, by simp, fitness_division_guard.2 ⟨5, 5⟩ ⟨5, 5⟩ [deadRocket] rfl (by simp)⟩

/-! ### C3: selection is the top elite slice of a stable descending sort -/

lemma sortByFitness_length (l : List Rocket) : (sortByFitness l).length = l.length :=
  (List.perm_insertionSort fitGE l).length_eq

lemma filter_orderedInsert (c : ℝ) (r : Rocket) :
    ∀ l : List Rocket,
      (List.orderedInsert fitGE r l).filter (fun x => x.fitness = c) =
        ((r :: l).filter (fun x => x.fitness = c))
  | [] => rfl
  | b :: l => by
      by_cases hrb : fitGE r b
      · rw [List.orderedInsert_of_le _ _ hrb]
      · simp only [List.orderedInsert, if_neg hrb]
        have hlt : r.fitness < b.fitness := lt_of_not_le hrb
        by_cases hb : b.fitness = c
        · have hr : ¬ r.fitness = c := by
            intro h0
            rw [h0, ← hb] at hlt
            exact lt_irrefl _ hlt
          simp [List.filter_cons, hb, hr, filter_orderedInsert c r l]
        · simp [List.filter_cons, hb, filter_orderedInsert c r l]

lemma filter_sortByFitness (c : ℝ) :
    ∀ l : List Rocket,
      (sortByFitness l).filter (fun x => x.fitness = c) = l.filter (fun x => x.fitness = c)
  | [] => rfl
  | r :: l => by
      simp only [sortByFitness, List.insertionSort]
      rw [filter_orderedInsert c r (List.insertionSort fitGE l)]
      by_cases hr : r.fitness = c <;>
        simpa [List.filter_cons, hr] using filter_sortByFitness c l

/-- C3: _selection returns exactly the top-E slice (E = floor(0.2 * N)) of
the stable descending sort by fitness: the sort is descending (fitGE
pairwise), a permutation of the input, and stable in the sense that the
rockets of any fixed fitness value keep their original relative order;
and the 10 percent branch that appends the two least fit rockets to the
local sorted list never changes the returned elite pool. -/
theorem selection_elite_slice :
    (∀ b rockets, selection b rockets = (sortByFitness rockets).take (eliteCount rockets.length)) ∧
    (∀ b rockets, selection b rockets = selection false rockets) ∧
    (∀ rockets, List.Sorted fitGE (sortByFitness rockets)) ∧
    (∀ rockets, (sortByFitness rockets).Perm rockets) ∧
    (∀ (rockets : List Rocket) (c : ℝ),
      (sortByFitness rockets).filter (fun x => x.fitness = c) =
        rockets.filter (fun x => x.fitness = c)) := by
  refine ⟨?_, ?_, ?_, ?_, ?_⟩
  · intro b rockets
    simp [selection, selectionPair, sortByFitness_length]
  · intro b rockets
    rfl
  · intro rockets
    exact List.sorted_insertionSort fitGE rockets
  · intro rockets
    exact List.perm_insertionSort fitGE rockets
  · intro rockets c
    exact filter_sortByFitness c rockets

/-! ### C2: size of the breeding pool -/

lemma eliteCount_le (n : ℕ) : eliteCount n ≤ n := by
  rw [eliteCount]
  have h1 : ((0.2 : ℚ) * n) ≤ (n : ℚ) := by
    have hn : (0 : ℚ) ≤ (n : ℚ) := Nat.cast_nonneg n
    nlinarith
  have h2 : ⌊(0.2 : ℚ) * n⌋ ≤ (n : ℤ) := by
    calc ⌊(0.2 : ℚ) * n⌋ ≤ ⌊(n : ℚ)⌋ := Int.floor_mono h1
    _ = n := Int.floor_natCast n
  exact Int.toNat_le.mpr h2

lemma selection_length (b : Bool) (rockets : List Rocket) :
    (selection b rockets).length = eliteCount rockets.length := by
  have hle := eliteCount_le rockets.length
  simp [selection, selectionPair, sortByFitness_length, List.length_take]
  omega

lemma choice_isSome {α : Type} {l : List α} (h : l ≠ []) (u : ℕ) : (choice l u).isSome := by
  have hlen : 0 < l.length := List.length_pos.mpr h
  rw [choice, List.get?_eq_get (Nat.mod_lt _ hlen)]
  rfl

lemma crossoverAux_length {rand : Oracle} {pool : List Rocket} :
    ∀ {k n : ℕ} {off : List Rocket}, crossoverAux rand pool k n = some off →
      off.length = 2 * n := by
  intro k n
  induction n generalizing k with
  | zero =>
      intro off h
      simp only [crossoverAux] at h
      injection h with h
      simp [← h]
  | succ n ih =>
      intro off h
      simp only [crossoverAux] at h
      obtain ⟨c, hc, h2⟩ := Option.bind_eq_some.mp h
      obtain ⟨rest, hrest, hoff⟩ := Option.map_eq_some'.mp h2
      subst hoff
      have := ih hrest
      simp [this]
      omega

lemma crossoverAux_isSome (rand : Oracle) {pool : List Rocket} (h2 : 2 ≤ pool.length) :
    ∀ (k n : ℕ), (crossoverAux rand pool k n).isSome := by
  intro k n
  induction n generalizing k with
  | zero => rfl
  | succ n ih =>
      have hpool : pool ≠ [] := by
        intro h0
        rw [h0] at h2
        simp at h2
      obtain ⟨p1r, hp1⟩ := Option.isSome_iff_exists.mp (choice_isSome hpool (rand.p1 k))
      have herase : pool.eraseIdx (rand.p1 k % pool.length) ≠ [] := by
        have hlt : rand.p1 k % pool.length < pool.length :=
          Nat.mod_lt _ (by omega)
        have hlen := List.length_eraseIdx pool (rand.p1 k % pool.length)
        rw [if_pos hlt] at hlen
        intro h0
        rw [h0] at hlen
        simp at hlen
        omega
      obtain ⟨p2r, hp2⟩ := Option.isSome_iff_exists.mp (choice_isSome herase (rand.p2 k))
      obtain ⟨rest, hrest⟩ := Option.isSome_iff_exists.mp (ih (k + 1))
      simp [crossoverAux, crossoverRound, hp1, hp2, hrest]

/-- Breeding pool construction of the claim: _selection followed by
_crossover, with the configured population equal to the size of the input
population. -/
noncomputable def breedPool (rand : Oracle) (rockets : List Rocket) : Option (List Rocket) :=
  crossover rand (selection rand.selBranch rockets) rockets.length

/-- Oracle whose streams are constantly zero. -/
def zeroOracle : Oracle :=
  { selBranch := false
    p1 := fun _ => 0
    p2 := fun _ => 0
    split := fun _ => 0
    childU := fun _ _ _ => 0
    childId := fun _ _ => 0
    mutCoin := fun _ _ => false
    mutU := fun _ _ => 0 }

/-- Concrete scored rocket (fitness 50). -/
noncomputable def rocketA : Rocket :=
  { genome := List.replicate 300 0
    fitness := 50
    id := 10
    alive := false
    angle := 270
    pos := ⟨10, 10⟩ }

/-- Concrete scored rocket (fitness 25). -/
noncomputable def rocketB : Rocket :=
  { genome := List.replicate 300 1
    fitness := 25
    id := 11
    alive := false
    angle := 270
    pos := ⟨20, 20⟩ }

/-- C2 counterexample: for the population [rocketA, rocketB] of size
N = 2 with fitness assigned, the elite count is int(0.2 * 2) = 0, so the
crossover loop runs one iteration and random.choice on the empty elite
pool raises IndexError: breeding produces no pool at all, in particular
none of the claimed size E + 2 * floor((N - E) / 2) = 2. -/
theorem breeding_pool_size_counterexample :
    breedPool zeroOracle [rocketA, rocketB] = none := by
  have hE : eliteCount 2 = 0 := by
    rw [eliteCount]
    norm_num
  have hsel : selection zeroOracle.selBranch [rocketA, rocketB] = [] := by
    simp [selection, selectionPair, sortByFitness_length, hE]
  simp [breedPool, hsel, crossover, crossoverAux, crossoverRound, choice]

/-- C2 (amended): whenever the elite count is at least 2 (so the parent
draws of _crossover are defined) or no offspring is needed, breeding a
population of size N produces a pool of size exactly
E + 2 * floor((N - E) / 2) with E = floor(0.2 * N); in particular the
formula gives 100 both for N = 100 and for N = 101, and the drift is not
corrected. -/
theorem breeding_pool_size :
    (∀ (rand : Oracle) (rockets : List Rocket),
      2 ≤ eliteCount rockets.length ∨
        (rockets.length - eliteCount rockets.length) / 2 = 0 →
      ∃ pool, breedPool rand rockets = some pool ∧
        pool.length = eliteCount rockets.length +
          2 * ((rockets.length - eliteCount rockets.length) / 2)) ∧
    eliteCount 100 + 2 * ((100 - eliteCount 100) / 2) = 100 ∧
    eliteCount 101 + 2 * ((101 - eliteCount 101) / 2) = 100 := by
  have h100 : eliteCount 100 = 20 := by
    rw [eliteCount]
    norm_num
    rfl
  have h101 : eliteCount 101 = 20 := by
    rw [eliteCount]
    norm_num
    rfl
  refine ⟨?_, by rw [h100], by rw [h101]⟩
  intro rand rockets hcond
  have hsel := selection_length rand.selBranch rockets
  rcases hcond with h2 | h0
  · obtain ⟨off, hoff⟩ := Option.isSome_iff_exists.mp
      (crossoverAux_isSome rand (by rw [hsel]; exact h2) 0
        ((rockets.length - eliteCount rockets.length) / 2))
    refine ⟨selection rand.selBranch rockets ++ off, ?_, ?_⟩
    · simp [breedPool, crossover, hsel, hoff]
    · have hlen := crossoverAux_length hoff
      simp [hsel, hlen]
  · refine ⟨selection rand.selBranch rockets, ?_, ?_⟩
    · simp [breedPool, crossover, hsel, h0, crossoverAux]
    · simp [hsel, h0]

/-- C2 witness: the amended pool size statement at the concrete
population of 100 copies of rocketA: the elite count 20 satisfies the
proviso and the resulting pool has size 20 + 2 * 40 = 100. -/
theorem breeding_pool_size_witness :
    2 ≤ eliteCount (List.replicate 100 rocketA).length ∧
    ∃ pool, breedPool zeroOracle (List.replicate 100 rocketA) = some pool ∧
      pool.length = eliteCount (List.replicate 100 rocketA).length +
        2 * (((List.replicate 100 rocketA).length -
          eliteCount (List.replicate 100 rocketA).length) / 2) := by
  have h100 : (List.replicate 100 rocketA).length = 100 := by simp
  have h2 : 2 ≤ eliteCount (List.replicate 100 rocketA).length := by
    rw [h100, eliteCount]
    norm_num
  exact ⟨h2, breeding_pool_size.1 zeroOracle (List.replicate 100 rocketA) (Or.inl h2)⟩

/-! ### C5: genome length and gene range invariants -/

/-- Wellformed genome: length 300 with every gene in [-7, 7]. -/
def validGenome (g : List ℤ) : Prop :=
  g.length = 300 ∧ ∀ x ∈ g, -7 ≤ x ∧ x ≤ 7

lemma randint_mem {a b : ℤ} (h : a ≤ b) (u : ℕ) :
    a ≤ randint a b u ∧ randint a b u ≤ b := by
  rw [randint]
  have hr : ((b - a + 1).toNat : ℤ) = b - a + 1 := Int.toNat_of_nonneg (by omega)
  have hlt : u % (b - a + 1).toNat < (b - a + 1).toNat := by
    apply Nat.mod_lt
    omega
  constructor
  · omega
  · have : ((u % (b - a + 1).toNat : ℕ) : ℤ) < ((b - a + 1).toNat : ℤ) :=
      Int.ofNat_lt.mpr hlt
    omega

lemma mkRocket_valid (id : ℕ) (u : ℕ → ℕ) : validGenome (mkRocket id u).genome := by
  constructor
  · simp [mkRocket]
  · intro x hx
    simp only [mkRocket, List.mem_map, List.mem_range] at hx
    obtain ⟨i, _, hx⟩ := hx
    rw [← hx]
    exact randint_mem (by norm_num) (u i)

lemma splice_valid {g1 g2 : List ℤ} (h1 : validGenome g1) (h2 : validGenome g2)
    {s : ℕ} (hs : s ≤ 300) : validGenome (g1.take s ++ g2.drop s) := by
  constructor
  · simp [h1.1, h2.1]
    omega
  · intro x hx
    rcases List.mem_append.mp hx with hm | hm
    · exact h1.2 x (List.take_subset s g1 hm)
    · exact h2.2 x (List.drop_subset s g2 hm)

lemma crossoverRound_valid {rand : Oracle} {pool : List Rocket} {k : ℕ} {c : Rocket × Rocket}
    (hpool : ∀ r ∈ pool, validGenome r.genome)
    (h : crossoverRound rand pool k = some c) :
    validGenome c.1.genome ∧ validGenome c.2.genome := by
  simp only [crossoverRound] at h
  obtain ⟨p1r, hp1, h⟩ := Option.bind_eq_some.mp h
  obtain ⟨p2r, hp2, h⟩ := Option.bind_eq_some.mp h
  rw [choice] at hp1 hp2
  have hm1 : p1r ∈ pool := List.get?_mem hp1
  have hm2 : p2r ∈ pool :=
    (List.eraseIdx_sublist pool (rand.p1 k % pool.length)).subset (List.get?_mem hp2)
  have hv1 := hpool p1r hm1
  have hv2 := hpool p2r hm2
  injection h with h
  have hs : (randint 0 (p1r.genome.length : ℤ) (rand.split k)).toNat ≤ 300 := by
    have hb := randint_mem (by positivity : (0 : ℤ) ≤ (p1r.genome.length : ℤ)) (rand.split k)
    have hlc : (p1r.genome.length : ℤ) = 300 := by exact_mod_cast hv1.1
    omega
  rw [← h]
  exact ⟨splice_valid hv1 hv2 hs, splice_valid hv2 hv1 hs⟩

lemma crossoverAux_valid {rand : Oracle} {pool : List Rocket}
    (hpool : ∀ r ∈ pool, validGenome r.genome) :
    ∀ {k n : ℕ} {off : List Rocket}, crossoverAux rand pool k n = some off →
      ∀ r ∈ off, validGenome r.genome := by
  intro k n
  induction n generalizing k with
  | zero =>
      intro off h r hr
      simp only [crossoverAux] at h
      injection h with h
      rw [← h] at hr
      simp at hr
  | succ n ih =>
      intro off h r hr
      simp only [crossoverAux] at h
      obtain ⟨c, hc, h2⟩ := Option.bind_eq_some.mp h
      obtain ⟨rest, hrest, hoff⟩ := Option.map_eq_some'.mp h2
      subst hoff
      have hcv := crossoverRound_valid hpool hc
      rcases List.mem_cons.mp hr with hr | hr
      · exact hr ▸ hcv.1
      · rcases List.mem_cons.mp hr with hr | hr
        · exact hr ▸ hcv.2
        · exact ih hrest r hr

lemma mutateGenome_range {coin : ℕ → Bool} {u : ℕ → ℕ} :
    ∀ {i : ℕ} {g : List ℤ}, (∀ x ∈ g, -7 ≤ x ∧ x ≤ 7) →
      ∀ x ∈ mutateGenome coin u i g, -7 ≤ x ∧ x ≤ 7 := by
  intro i g
  induction g generalizing i with
  | nil =>
      intro _ x hx
      simp [mutateGenome] at hx
  | cons a gs ih =>
      intro hg x hx
      simp only [mutateGenome, List.mem_cons] at hx
      rcases hx with hx | hx
      · subst hx
        split
        · exact randint_mem (by norm_num) _
        · exact hg a (List.mem_cons_self a gs)
      · exact ih (fun y hy => hg y (List.mem_cons_of_mem a hy)) x hx

lemma mutateGenome_length (coin : ℕ → Bool) (u : ℕ → ℕ) :
    ∀ (i : ℕ) (g : List ℤ), (mutateGenome coin u i g).length = g.length
  | _, [] => rfl
  | i, x :: gs => by simp [mutateGenome, mutateGenome_length coin u (i + 1) gs]

lemma mutation_valid {coin : ℕ → ℕ → Bool} {u : ℕ → ℕ → ℕ} :
    ∀ {i : ℕ} {rockets : List Rocket}, (∀ r ∈ rockets, validGenome r.genome) →
      ∀ r ∈ mutation coin u i rockets, validGenome r.genome := by
  intro i rockets
  induction rockets generalizing i with
  | nil =>
      intro _ r hr
      simp [mutation] at hr
  | cons a rs ih =>
      intro hg r hr
      simp only [mutation, List.mem_cons] at hr
      rcases hr with hr | hr
      · subst hr
        have hv := hg a (List.mem_cons_self a rs)
        exact ⟨by rw [mutateGenome_length, hv.1], mutateGenome_range hv.2⟩
      · exact ih (fun y hy => hg y (List.mem_cons_of_mem a hy)) r hr

lemma selection_subset {b : Bool} {rockets : List Rocket} :
    ∀ r ∈ selection b rockets, r ∈ rockets := by
  intro r hr
  have h1 : r ∈ sortByFitness rockets := List.take_subset _ _ hr
  exact ((List.perm_insertionSort fitGE rockets).mem_iff).mp h1

lemma resetRockets_valid {start : Point} {l : List Rocket}
    (h : ∀ r ∈ l, validGenome r.genome) :
    ∀ r ∈ resetRockets start l, validGenome r.genome := by
  intro r hr
  simp only [resetRockets, List.mem_map] at hr
  obtain ⟨r0, hr0, heq⟩ := hr
  rw [← heq]
  exact h r0 hr0

/-- C5: genome wellformedness (length exactly 300, every gene in [-7, 7])
holds for a freshly created rocket, is preserved by _crossover (children
are the spliced genomes parent1[0:split] ++ parent2[split:] with split in
[0, 300]), by _mutation, and by a whole next_gen breeding event. -/
theorem genome_invariants :
    (∀ (id : ℕ) (u : ℕ → ℕ), validGenome (mkRocket id u).genome) ∧
    (∀ (rand : Oracle) (pool : List Rocket) (population : ℕ) (out : List Rocket),
      (∀ r ∈ pool, validGenome r.genome) →
      crossover rand pool population = some out →
      ∀ r ∈ out, validGenome r.genome) ∧
    (∀ (coin : ℕ → ℕ → Bool) (u : ℕ → ℕ → ℕ) (i : ℕ) (rockets : List Rocket),
      (∀ r ∈ rockets, validGenome r.genome) →
      ∀ r ∈ mutation coin u i rockets, validGenome r.genome) ∧
    (∀ (rand : Oracle) (st st' : SimState), nextGen rand st = some st' →
      (∀ r ∈ st.rockets, validGenome r.genome) →
      ∀ r ∈ st'.rockets, validGenome r.genome) := by
  refine ⟨mkRocket_valid, ?_, fun coin u i rockets h => mutation_valid h, ?_⟩
  · intro rand pool population out hpool hout r hr
    simp only [crossover] at hout
    obtain ⟨off, hoff, hout⟩ := Option.map_eq_some'.mp hout
    rw [← hout] at hr
    rcases List.mem_append.mp hr with hm | hm
    · exact hpool r hm
    · exact crossoverAux_valid hpool hoff r hm
  · intro rand st st' hng hin r hr
    simp only [nextGen] at hng
    obtain ⟨crossed, hcrossed, hst⟩ := Option.map_eq_some'.mp hng
    rw [← hst] at hr
    simp only at hr
    have hsel : ∀ r2 ∈ selection rand.selBranch st.rockets, validGenome r2.genome :=
      fun r2 h2 => hin r2 (selection_subset r2 h2)
    have hcr : ∀ r2 ∈ crossed, validGenome r2.genome := by
      intro r2 h2
      simp only [crossover] at hcrossed
      obtain ⟨off, hoff, hcrossed⟩ := Option.map_eq_some'.mp hcrossed
      rw [← hcrossed] at h2
      rcases List.mem_append.mp h2 with hm | hm
      · exact hsel r2 hm
      · exact crossoverAux_valid hsel hoff r2 hm
    exact resetRockets_valid (mutation_valid hcr) r hr

/-- C5 witness: the invariant evaluated across creation and mutation at
a fully concrete input: mutating the singleton population of the rocket
created from the constantly zero stream yields a rocket whose genome is
wellformed. -/
theorem genome_invariants_witness :
    validGenome ((mutation zeroOracle.mutCoin zeroOracle.mutU 0
      [mkRocket 5 (fun _ => 0)]).getD 0 deadRocket).genome := by
  have hin : ∀ r ∈ [mkRocket 5 (fun _ => 0)], validGenome r.genome := by
    intro r hr
    rw [List.mem_singleton.mp hr]
    exact genome_invariants.1 5 (fun _ => 0)
  apply genome_invariants.2.2.1 zeroOracle.mutCoin zeroOracle.mutU 0 _ hin
  simp [mutation]

/-! ### C7: breeding happens exactly when no rocket is alive -/

/-- C7: one iteration of the main loop invokes next_gen if and only if
the alive count is 0 at the top of the iteration: with a live rocket the
body is just the tick phase, which never changes the generation counter;
with alive count 0 it is next_gen followed by the tick phase, and next_gen
increments the generation, resets the tick index to 0 and revives every
rocket of the new pool. -/
theorem breeding_iff_no_alive :
    (∀ (rand : Oracle) (st : SimState), st.aliveRockets ≠ 0 →
      loopBody rand st = stepPhase st) ∧
    (∀ (rand : Oracle) (st : SimState), st.aliveRockets = 0 →
      loopBody rand st = (nextGen rand st).bind stepPhase) ∧
    (∀ st st' : SimState, stepPhase st = some st' → st'.generation = st.generation) ∧
    (∀ (rand : Oracle) (st st' : SimState), nextGen rand st = some st' →
      st'.generation = st.generation + 1 ∧ st'.index = 0 ∧
        ∀ r ∈ st'.rockets, r.alive = true) := by
  refine ⟨?_, ?_, ?_, ?_⟩
  · intro rand st h
    simp [loopBody, h]
  · intro rand st h
    simp [loopBody, h]
  · intro st st' h
    simp only [stepPhase] at h
    by_cases hf : st.foundSolution
    · rw [if_pos hf] at h
      injection h with h
      rw [← h]
    · rw [if_neg hf] at h
      rw [update_eq_some h]
  · intro rand st st' h
    simp only [nextGen] at h
    obtain ⟨crossed, _, hst⟩ := Option.map_eq_some'.mp h
    rw [← hst]
    refine ⟨rfl, rfl, ?_⟩
    intro r hr
    simp only [resetRockets, List.mem_map] at hr
    obtain ⟨r0, _, heq⟩ := hr
    rw [← heq]

/-- Alive rocket parked exactly on the goal. -/
noncomputable def aliveAtGoal : Rocket :=
  { genome := List.replicate 300 0
    fitness := -1
    id := 2
    alive := true
    angle := 270
    pos := ⟨0, 100⟩ }

/-- Solved state with one alive rocket on the goal. -/
noncomputable def stSolved : SimState :=
  { rockets := [aliveAtGoal]
    index := 3
    winW := 600
    winH := 800
    obstacles := []
    start := ⟨0, 0⟩
    goal := ⟨0, 100⟩
    population := 1
    generation := 4 }

/-- State with no rockets at all (alive count 0). -/
noncomputable def stEmpty : SimState :=
  { rockets := []
    index := 7
    winW := 600
    winH := 800
    obstacles := []
    start := ⟨0, 0⟩
    goal := ⟨0, 100⟩
    population := 0
    generation := 1 }

lemma stSolved_found : stSolved.foundSolution := by
  refine ⟨aliveAtGoal, by simp [stSolved], ?_⟩
  have : pointDist aliveAtGoal.pos stSolved.goal = 0 := pointDist_self _
  rw [this]
  norm_num

lemma nextGen_stEmpty :
    nextGen zeroOracle stEmpty =
      some { stEmpty with rockets := [], index := 0, generation := stEmpty.generation + 1 } := by
  have hsel : selection zeroOracle.selBranch ([] : List Rocket) = [] := by
    simp [selection, selectionPair, sortByFitness]
  simp [nextGen, crossover, stEmpty, hsel, crossoverAux, mutation, resetRockets]

/-- C7 witness: the four parts applied at the concrete states stSolved
(one alive rocket) and stEmpty (no rockets): no breeding with a live
rocket, breeding with alive count 0, and the generation counter moves
exactly with the breeding step. -/
theorem breeding_iff_no_alive_witness :
    stSolved.aliveRockets ≠ 0 ∧
    loopBody zeroOracle stSolved = stepPhase stSolved ∧
    stEmpty.aliveRockets = 0 ∧
    loopBody zeroOracle stEmpty = (nextGen zeroOracle stEmpty).bind stepPhase ∧
    ∃ st', nextGen zeroOracle stEmpty = some st' ∧
      st'.generation = stEmpty.generation + 1 ∧ st'.index = 0 := by
  have h1 : stSolved.aliveRockets ≠ 0 := by decide
  have h0 : stEmpty.aliveRockets = 0 := by decide
  obtain ⟨hgen, hidx, _⟩ :=
    breeding_iff_no_alive.2.2.2 zeroOracle stEmpty _ nextGen_stEmpty
  exact ⟨h1, breeding_iff_no_alive.1 zeroOracle stSolved h1, h0,
    breeding_iff_no_alive.2.1 zeroOracle stEmpty h0, _, nextGen_stEmpty, hgen, hidx⟩

/-! ### C6: the solved freeze and its priority -/

/-- Dead rocket parked exactly on the goal. -/
noncomputable def deadAtGoal : Rocket :=
  { genome := List.replicate 300 0
    fitness := 99
    id := 3
    alive := false
    angle := 270
    pos := ⟨0, 100⟩ }

/-- State that is solved (a rocket within distance 10 of the goal) and at
the same time has alive count 0. -/
noncomputable def stSolvedDead : SimState :=
  { rockets := [deadAtGoal]
    index := 5
    winW := 600
    winH := 800
    obstacles := []
    start := ⟨0, 0⟩
    goal := ⟨0, 100⟩
    population := 1
    generation := 1 }

/-- C6 counterexample: on a state where the solved condition and the
alive-count-zero condition hold on the same loop iteration, the loop
nonetheless breeds (the generation counter increments) and then ticks
(the tick index advances to 1): the breeding trigger runs BEFORE the
solved check, so the solved freeze does not take priority and breeding is
not suppressed. -/
theorem solved_freeze_counterexample :
    stSolvedDead.aliveRockets = 0 ∧ stSolvedDead.foundSolution ∧
    ∃ st', loopBody zeroOracle stSolvedDead = some st' ∧
      st'.generation = stSolvedDead.generation + 1 ∧ st'.index = 1 := by
  have h0 : stSolvedDead.aliveRockets = 0 := by decide
  have hf : stSolvedDead.foundSolution := by
    refine ⟨deadAtGoal, by simp [stSolvedDead], ?_⟩
    have : pointDist deadAtGoal.pos stSolvedDead.goal = 0 := pointDist_self _
    rw [this]
    norm_num
  have hE1 : eliteCount 1 = 0 := by
    rw [eliteCount]
    norm_num
  have hsel : selection zeroOracle.selBranch [deadAtGoal] = [] := by
    simp [selection, selectionPair, sortByFitness, List.insertionSort,
      List.orderedInsert, hE1]
  have hng : nextGen zeroOracle stSolvedDead =
      some { stSolvedDead with rockets := [], index := 0, generation := stSolvedDead.generation + 1 } := by
    simp [nextGen, crossover, stSolvedDead, hsel, crossoverAux, mutation, resetRockets]
  refine ⟨h0, hf, ?_⟩
  have hloop : loopBody zeroOracle stSolvedDead =
      some { stSolvedDead with rockets := [], index := 1, generation := stSolvedDead.generation + 1 } := by
    simp only [loopBody, h0, if_pos]
    rw [hng]
    simp only [Option.some_bind, stepPhase]
    rw [if_neg (by simp [SimState.foundSolution])]
    simp [SimState.update, fitnessPass, fitnessList, checkCollision]
  exact ⟨_, hloop, rfl, rfl⟩

/-- C6 (amended): once some agent is within distance 10 of the goal AND
at least one agent is still alive, the loop body returns the state
unchanged, and stays unchanged over any number of iterations (no tick
advance, no breeding) until an external restart; but the alive-count-zero
breeding trigger is evaluated FIRST each iteration: when the alive count
is 0, the body breeds with next_gen and only then re-evaluates the solved
condition on the post-breeding state, so breeding (and a subsequent tick)
can occur even though the solved condition held. -/
theorem solved_freeze :
    (∀ (rand : Oracle) (st : SimState), st.foundSolution → st.aliveRockets ≠ 0 →
      loopBody rand st = some st) ∧
    (∀ (rand : Oracle) (st : SimState) (k : ℕ), st.foundSolution → st.aliveRockets ≠ 0 →
      iterLoop rand k st = some st) ∧
    (∀ (rand : Oracle) (st : SimState), st.aliveRockets = 0 →
      loopBody rand st = (nextGen rand st).bind stepPhase) := by
  have hone : ∀ (rand : Oracle) (st : SimState), st.foundSolution → st.aliveRockets ≠ 0 →
      loopBody rand st = some st := by
    intro rand st hf ha
    simp [loopBody, ha, stepPhase, hf]
  refine ⟨hone, ?_, ?_⟩
  · intro rand st k hf ha
    induction k with
    | zero => rfl
    | succ k ih => simp [iterLoop, hone rand st hf ha, ih]
  · intro rand st h
    simp [loopBody, h]

/-- C6 witness: the freeze applied at the concrete solved state stSolved
with one alive rocket, iterated three times. -/
theorem solved_freeze_witness :
    stSolved.foundSolution ∧ stSolved.aliveRockets ≠ 0 ∧
      iterLoop zeroOracle 3 stSolved = some stSolved := by
  have h1 : stSolved.aliveRockets ≠ 0 := by decide
  exact ⟨stSolved_found, h1, solved_freeze.2.1 zeroOracle stSolved 3 stSolved_found h1⟩
